import Mathlib

/-!
Shallow embedding of the mad-con batch media converter: the shared helper
module (logWithTimestamp, formatFileSize), the non-interactive driver
src/convert.js and the interactive driver src/cli.js, together with models
of the external collaborators they call into (the Node path module, the
JavaScript parseFloat builtin, and the chalk styling library), followed by
theorems about the specified behaviour.
-/

/-- JavaScript truthiness of a string value: every string except the empty
one is truthy. -/
def jsTruthy (s : String) : Bool := s != ""

/-- Whitespace recognized by JavaScript (ASCII part): space, tab, line feed,
carriage return, vertical tab and form feed. -/
def jsWhitespaceB (c : Char) : Bool :=
  c == ' ' || c == '\t' || c == '\n' || c == '\r' || c == '\x0b' || c == '\x0c'

/-- Model of String.prototype.trim restricted to ASCII whitespace. -/
def jsTrim (s : String) : String :=
  String.mk (((s.data.dropWhile jsWhitespaceB).reverse.dropWhile jsWhitespaceB).reverse)

/-- ASCII lowering of one character, as String.prototype.toLowerCase acts on
the ASCII range. -/
def jsToLowerChar (c : Char) : Char :=
  if 'A' ≤ c ∧ c ≤ 'Z' then Char.ofNat (c.toNat + 32) else c

/-- Model of String.prototype.toLowerCase on ASCII input. -/
def jsToLower (s : String) : String := String.mk (s.data.map jsToLowerChar)

/-- True when the string contains no path separator. -/
def noSlash (s : String) : Bool := s.data.all (fun c => c != '/')

/-- True when the string contains no dot. -/
def noDot (s : String) : Bool := s.data.all (fun c => c != '.')

namespace NodePath

/-- A character that is not the path separator. -/
def notSep (c : Char) : Bool := c != '/'

/-- Model of Node path.basename (posix form, for paths without a trailing
separator): the part after the last separator. -/
def basenameL (cs : List Char) : List Char := (cs.reverse.takeWhile notSep).reverse

/-- Model of Node path.dirname (posix form, for paths without a trailing
separator): everything before the last separator, a dot when there is no
separator, the root when the only separator is the leading one. -/
def dirnameL (cs : List Char) : List Char :=
  match cs.reverse.dropWhile notSep with
  | [] => ['.']
  | _ :: tail => if tail.isEmpty then ['/'] else tail.reverse

/-- Extension of a name containing no separator: from the last dot to the
end, and empty when there is no dot or the only dot is the leading
character (as Node path.extname behaves on ordinary names). -/
def extOfBase (base : List Char) : List Char :=
  let afterRev := base.reverse.takeWhile (fun c => c != '.')
  if afterRev.length = base.length then []
  else if afterRev.length + 1 = base.length then []
  else '.' :: afterRev.reverse

/-- Model of Node path.extname. -/
def extnameL (cs : List Char) : List Char := extOfBase (basenameL cs)

/-- Model of the two-argument Node path.basename: the basename with the
given suffix stripped when the suffix is nonempty, matches the end of the
basename and is not the whole basename. -/
def basenameSuffixL (cs suffix : List Char) : List Char :=
  let base := basenameL cs
  if suffix ≠ [] ∧ base ≠ suffix ∧ suffix.isSuffixOf base then
    base.take (base.length - suffix.length)
  else base

/-- String wrapper for basenameL. -/
def basename (s : String) : String := String.mk (basenameL s.data)

/-- String wrapper for dirnameL. -/
def dirname (s : String) : String := String.mk (dirnameL s.data)

/-- String wrapper for extnameL. -/
def extname (s : String) : String := String.mk (extnameL s.data)

/-- String wrapper for basenameSuffixL. -/
def basenameExt (s suffix : String) : String := String.mk (basenameSuffixL s.data suffix.data)

/-- Model of Node path.join applied to two plain segments. -/
def join (a b : String) : String := a ++ "/" ++ b

end NodePath

/-- The style names the chalk library exposes as properties; any other
property access on the chalk object yields undefined. -/
def chalkStyleNames : List String :=
  ["reset", "bold", "dim", "italic", "underline", "inverse", "hidden",
   "strikethrough", "visible", "black", "red", "green", "yellow", "blue",
   "magenta", "cyan", "white", "gray", "grey", "blackBright", "redBright",
   "greenBright", "yellowBright", "blueBright", "magentaBright",
   "cyanBright", "whiteBright", "bgBlack", "bgRed", "bgGreen", "bgYellow",
   "bgBlue", "bgMagenta", "bgCyan", "bgWhite", "bgBlackBright",
   "bgRedBright", "bgGreenBright", "bgYellowBright", "bgBlueBright",
   "bgMagentaBright", "bgCyanBright", "bgWhiteBright"]

/-- Model of applying one chalk style: a nonempty message is wrapped in
style markers, and styling the empty string yields the empty string (a
falsy value), as chalk does. -/
def chalkStyle (tag msg : String) : String :=
  if msg = "" then "" else "<" ++ tag ++ ">" ++ msg ++ "</" ++ tag ++ ">"

/-- Model of the property access chalk[tag]: a styling function when tag is
a chalk style name, none (undefined) otherwise. -/
def chalkLookup (tag : String) : Option (String → String) :=
  if chalkStyleNames.contains tag then some (chalkStyle tag) else none

/-- logWithTimestamp from the shared helper module, with the wall-clock
time passed in. The body evaluates chalk[color](message): when color is not
a chalk style name this calls undefined and throws a TypeError, so the
falsy-fallback to chalk.whiteBright can only ever apply to an empty
message. On success it produces the single printed line. -/
def logWithTimestamp (time message color : String) : Except String String :=
  match chalkLookup color with
  | none => Except.error "TypeError: chalk[color] is not a function"
  | some style =>
    let styled := style message
    let body := if styled = "" then chalkStyle "whiteBright" message else styled
    Except.ok (chalkStyle "dim" time ++ " " ++ chalkStyle "greenBright" "▶" ++ " " ++ body)

namespace ConvertJs

/-- getConversionOptions from src/convert.js: an optional user scale filter
(empty when scale is falsy or the literal auto), the gifflags pair, the
forced-overwrite flag, an optional fps filter, with falsy entries removed
by the Boolean filter. -/
def getConversionOptions (format scale fps : String) : List String :=
  let scaleFilter := if jsTruthy scale && scale != "auto" then "-vf scale=" ++ scale else ""
  let fpsFilter := if jsTruthy fps && fps != "auto" then "-vf fps=" ++ fps else ""
  [scaleFilter, "-gifflags", "transdiff", "-y", fpsFilter].filter jsTruthy

end ConvertJs

namespace CliJs

/-- getConversionOptions from src/cli.js: identical to the src/convert.js
version except that a falsy or auto scale yields the default filter
-vf scale=-1:-1 instead of the empty string. -/
def getConversionOptions (format scale fps : String) : List String :=
  let scaleFilter :=
    if jsTruthy scale && scale != "auto" then "-vf scale=" ++ scale else "-vf scale=-1:-1"
  let fpsFilter := if jsTruthy fps && fps != "auto" then "-vf fps=" ++ fps else ""
  [scaleFilter, "-gifflags", "transdiff", "-y", fpsFilter].filter jsTruthy

end CliJs

/-- One directory entry as produced by fs.readdirSync, paired with whether
fs.statSync reports the joined path as a regular file. -/
structure DirEntry where
  name : String
  isFile : Bool
deriving DecidableEq, Repr

namespace ConvertJs

/-- The accepted extension list of src/convert.js. -/
def extensions : List String := [".mp4", ".avi", ".jpg", ".jpeg", ".png"]

/-- The directory branch of getMediaFiles from src/convert.js: push, in
listing order, each entry whose joined path is a regular file with a
lowercased extension in the accepted list. -/
def getMediaFilesDir (inputPath : String) (entries : List DirEntry) : List String :=
  entries.foldl (fun acc e =>
    let filePath := NodePath.join inputPath e.name
    if e.isFile && extensions.contains (jsToLower (NodePath.extname filePath)) then
      acc ++ [filePath]
    else acc) []

end ConvertJs

namespace CliJs

/-- The directory branch of getVideoFiles from src/cli.js: push, in listing
order, each entry whose joined path is a regular file whose lowercased
extension equals .mp4. -/
def getVideoFilesDir (inputPath : String) (entries : List DirEntry) : List String :=
  entries.foldl (fun acc e =>
    let filePath := NodePath.join inputPath e.name
    if e.isFile && (jsToLower (NodePath.extname filePath) == ".mp4") then
      acc ++ [filePath]
    else acc) []

end CliJs

/-- The output path derived for one file in both main loops: the directory
of the first discovered file joined with the extension-stripped basename of
the file plus a dot and the chosen format. -/
def outputFileFor (f0 file format : String) : String :=
  NodePath.join (NodePath.dirname f0)
    (NodePath.basenameExt file (NodePath.extname file) ++ "." ++ format)

/-- The derived output paths of a whole batch: outputFolder is computed
once from the first discovered file, then every file is mapped through the
outputFile derivation, exactly as src/convert.js main and the src/cli.js
IIFE do. -/
def batchOutputFiles (mediaFiles : List String) (format : String) : List String :=
  match mediaFiles with
  | [] => []
  | f0 :: _ => mediaFiles.map (fun file => outputFileFor f0 file format)

/-- Abstract view of one discovered file as the interactive batch loop
consumes it: whether its derived output path already exists, the trimmed
reply the user would give to the overwrite prompt, and whether the engine
conversion of the file would succeed. -/
structure FileTask where
  outputExists : Bool
  response : String
  convOk : Bool
deriving DecidableEq, Repr

/-- The mutable per-run state of the interactive loop. -/
structure BatchState where
  overwriteAll : Bool
  skipAll : Bool
  completed : Nat
deriving DecidableEq, Repr

/-- Per-file outcome of the batch loop; canceled models process.exit(1). -/
inductive Outcome where
  | converted
  | skipped
  | failed
  | canceled
deriving DecidableEq, Repr

namespace CliJs

/-- The tail of one loop body of the src/cli.js IIFE: the skipAll check
followed by the try/catch around convertVideo, bumping completedFiles on
success. -/
def attemptConvert (st : BatchState) (f : FileTask) : BatchState × Outcome :=
  if st.skipAll then (st, Outcome.skipped)
  else if f.convOk then ({ st with completed := st.completed + 1 }, Outcome.converted)
  else (st, Outcome.failed)

/-- One full loop body of the src/cli.js IIFE: when the output exists and
neither session flag is set, the overwrite prompt decides (0 cancels,
2 sets overwriteAll and falls through, 4 sets skipAll and skips, 3 skips,
1 and every other reply fall through), then the conversion attempt runs. -/
def processFile (st : BatchState) (f : FileTask) : BatchState × Outcome :=
  if f.outputExists && !st.overwriteAll && !st.skipAll then
    if f.response = "0" then (st, Outcome.canceled)
    else if f.response = "2" then attemptConvert { st with overwriteAll := true } f
    else if f.response = "4" then ({ st with skipAll := true }, Outcome.skipped)
    else if f.response = "3" then (st, Outcome.skipped)
    else attemptConvert st f
  else attemptConvert st f

/-- The interactive batch loop over the discovered files in order,
terminating the whole run at a cancel. -/
def runBatch : BatchState → List FileTask → BatchState × List Outcome
  | st, [] => (st, [])
  | st, f :: fs =>
    let p := processFile st f
    if p.2 = Outcome.canceled then (p.1, [p.2])
    else
      let r := runBatch p.1 fs
      (r.1, p.2 :: r.2)

/-- The per-run state at the start of a batch. -/
def initState : BatchState := ⟨false, false, 0⟩

end CliJs

namespace ConvertJs

/-- The non-interactive loop of src/convert.js main: an existing output is
skipped, otherwise convertMedia runs inside try/catch and a success bumps
completedFiles. Each file is summarised as (output exists, conversion
succeeds). -/
def runSimpleBatch : Nat → List (Bool × Bool) → Nat × List Outcome
  | completed, [] => (completed, [])
  | completed, (ex, ok) :: fs =>
    if ex then
      let r := runSimpleBatch completed fs
      (r.1, Outcome.skipped :: r.2)
    else if ok then
      let r := runSimpleBatch (completed + 1) fs
      (r.1, Outcome.converted :: r.2)
    else
      let r := runSimpleBatch completed fs
      (r.1, Outcome.failed :: r.2)

end ConvertJs

/-- A JavaScript number as far as the parseFloat range checks need: one of
the infinities or an exact rational (IEEE rounding is abstracted away, which
does not change any comparison against the bounds used here). -/
inductive JsNum where
  | posInf
  | negInf
  | num (q : ℚ)
deriving DecidableEq, Repr

/-- Value of a list of decimal digit characters. -/
def digitsToNat (ds : List Char) : Nat :=
  ds.foldl (fun a c => a * 10 + (c.toNat - 48)) 0

/-- Mantissa of a JavaScript decimal literal: digits, then optionally a dot
and more digits; none when not a single digit is found. Also returns the
remaining characters for exponent parsing. -/
def parseMantissa (cs : List Char) : Option (ℚ × List Char) :=
  let ip := cs.takeWhile Char.isDigit
  let r1 := cs.dropWhile Char.isDigit
  match r1 with
  | '.' :: r2 =>
    let fp := r2.takeWhile Char.isDigit
    let r3 := r2.dropWhile Char.isDigit
    if ip.isEmpty && fp.isEmpty then none
    else some ((digitsToNat ip : ℚ) + (digitsToNat fp : ℚ) / (10 : ℚ) ^ fp.length, r3)
  | _ => if ip.isEmpty then none else some ((digitsToNat ip : ℚ), r1)

/-- Signed digit run of an exponent part; 0 when the digits are missing,
matching the longest-valid-prefix rule of parseFloat. -/
def parseSignedDigits (cs : List Char) : ℤ :=
  match cs with
  | '+' :: rest =>
    let ds := rest.takeWhile Char.isDigit
    if ds.isEmpty then 0 else (digitsToNat ds : ℤ)
  | '-' :: rest =>
    let ds := rest.takeWhile Char.isDigit
    if ds.isEmpty then 0 else -(digitsToNat ds : ℤ)
  | _ =>
    let ds := cs.takeWhile Char.isDigit
    if ds.isEmpty then 0 else (digitsToNat ds : ℤ)

/-- Exponent part of a JavaScript decimal literal; a malformed or missing
exponent contributes 0, matching the longest-valid-prefix rule. -/
def parseExponent (cs : List Char) : ℤ :=
  match cs with
  | 'e' :: rest => parseSignedDigits rest
  | 'E' :: rest => parseSignedDigits rest
  | _ => 0

/-- Scale a mantissa by a decimal exponent. -/
def applyExponent (q : ℚ) (e : ℤ) : ℚ :=
  if 0 ≤ e then q * (10 : ℚ) ^ e.toNat else q / (10 : ℚ) ^ (-e).toNat

/-- The characters of the Infinity literal. -/
def infinityChars : List Char := ['I', 'n', 'f', 'i', 'n', 'i', 't', 'y']

/-- parseFloat after the optional sign: the Infinity literal or a decimal
literal with optional exponent; trailing characters are ignored. -/
def jsParseFloatCore (neg : Bool) (cs : List Char) : Option JsNum :=
  if infinityChars.isPrefixOf cs then some (if neg then JsNum.negInf else JsNum.posInf)
  else
    match parseMantissa cs with
    | none => none
    | some (q, rest) =>
      let v := applyExponent q (parseExponent rest)
      some (JsNum.num (if neg then -v else v))

/-- Model of the JavaScript parseFloat builtin: skip leading whitespace,
take an optional sign, then the longest valid decimal-literal prefix; none
models NaN. -/
def jsParseFloat (s : String) : Option JsNum :=
  match s.data.dropWhile jsWhitespaceB with
  | '+' :: rest => jsParseFloatCore false rest
  | '-' :: rest => jsParseFloatCore true rest
  | cs => jsParseFloatCore false cs

namespace CliJs

/-- validateScale from promptUserScale in src/cli.js: the empty string and
auto map to auto, otherwise the input is returned exactly when its
parseFloat value is a number no less than 0.25 and no greater than 3.0
(an infinity or NaN fails those checks). -/
def validateScale (input : String) : Option String :=
  if input = "" ∨ input = "auto" then some "auto"
  else
    match jsParseFloat input with
    | some (JsNum.num q) => if 1/4 ≤ q ∧ q ≤ 3 then some input else none
    | _ => none

/-- promptUserScale from src/cli.js, driven by the queue of lines the user
will type: each line is trimmed and validated, and an invalid line makes
the loop ask again; none models a user that never supplies a valid line. -/
def promptUserScale : List String → Option String
  | [] => none
  | a :: rest =>
    match validateScale (jsTrim a) with
    | some s => some s
    | none => promptUserScale rest

end CliJs

/-- Two-decimal rendering as Number.prototype.toFixed(2) performs on a
nonnegative value: round half up to hundredths, then print the integer
part, a dot and exactly two digit characters. -/
def toFixed2 (q : ℚ) : String :=
  let n : Nat := (⌊q * 100 + 1/2⌋).toNat
  toString (n / 100) ++ "." ++ String.mk [Nat.digitChar (n / 10 % 10), Nat.digitChar (n % 10)]

/-- formatFileSize from the shared helper module: megabytes over 1 render
with two decimals and MB, else kilobytes over 1 with two decimals and KB,
else the plain byte count. -/
def formatFileSize (size : Nat) : String :=
  let bytes : ℚ := size
  let kilobytes : ℚ := bytes / 1024
  let megabytes : ℚ := kilobytes / 1024
  if megabytes > 1 then toFixed2 megabytes ++ " MB"
  else if kilobytes > 1 then toFixed2 kilobytes ++ " KB"
  else toString size ++ " bytes"

section Helpers

/-- Appending strings appends their character lists. -/
theorem string_mk_append (a b : List Char) : String.mk a ++ String.mk b = String.mk (a ++ b) := rfl

/-- A string is determined by its character list. -/
theorem string_mk_data (s : String) : String.mk s.data = s := by
  cases s
  rfl

/-- A string with a nonempty left part is nonempty. -/
theorem append_left_ne_empty (a b : String) (h : a ≠ "") : a ++ b ≠ "" := by
  intro hab
  apply h
  cases a with
  | mk la =>
    cases b with
    | mk lb =>
      have hd : la ++ lb = ([] : List Char) := congrArg String.data hab
      have : la = [] := (List.append_eq_nil.mp hd).1
      rw [this]

/-- takeWhile walks through a block that satisfies the predicate. -/
theorem takeWhile_append_all {α : Type} {p : α → Bool} :
    ∀ (l r : List α), (∀ c ∈ l, p c = true) → (l ++ r).takeWhile p = l ++ r.takeWhile p := by
  intro l
  induction l with
  | nil => intro r _; rfl
  | cons x xs ih =>
    intro r h
    have hx : p x = true := h x (by simp)
    simp [List.takeWhile_cons, hx, ih r (fun c hc => h c (by simp [hc]))]

/-- dropWhile removes a whole block that satisfies the predicate. -/
theorem dropWhile_append_all {α : Type} {p : α → Bool} :
    ∀ (l r : List α), (∀ c ∈ l, p c = true) → (l ++ r).dropWhile p = r.dropWhile p := by
  intro l
  induction l with
  | nil => intro r _; rfl
  | cons x xs ih =>
    intro r h
    have hx : p x = true := h x (by simp)
    simp [List.dropWhile_cons, hx, ih r (fun c hc => h c (by simp [hc]))]

/-- Folding a conditional push produces the filtered map, in order. -/
theorem foldl_push_filter {α β : Type} (p : α → Bool) (g : α → β) :
    ∀ (l : List α) (acc : List β),
      l.foldl (fun a e => if p e then a ++ [g e] else a) acc = acc ++ (l.filter p).map g := by
  intro l
  induction l with
  | nil => intro acc; simp
  | cons x xs ih =>
    intro acc
    by_cases hx : p x = true
    · simp [List.foldl_cons, hx, ih, List.filter_cons]
    · have hx' : p x = false := by
        cases hpx : p x
        · rfl
        · exact absurd hpx hx
      simp [List.foldl_cons, hx', ih, List.filter_cons]

end Helpers

section PathLemmas

/-- Characters of a joined path. -/
theorem join_data (d b : String) :
    (NodePath.join d b).data = d.data ++ '/' :: b.data := by
  cases d with
  | mk ld =>
    cases b with
    | mk lb =>
      show (ld ++ ['/']) ++ lb = ld ++ '/' :: lb
      simp

/-- A string passing noSlash has only non-separator characters. -/
theorem noSlash_chars {s : String} (h : noSlash s = true) :
    ∀ c ∈ s.data, NodePath.notSep c = true := by
  intro c hc
  exact List.all_eq_true.mp h c hc

/-- Basename of a separator-extended list is the part after the separator. -/
theorem basenameL_append_sep (dl bl : List Char)
    (hb : ∀ c ∈ bl, NodePath.notSep c = true) :
    NodePath.basenameL (dl ++ '/' :: bl) = bl := by
  unfold NodePath.basenameL
  have hrev : (dl ++ '/' :: bl).reverse = bl.reverse ++ '/' :: dl.reverse := by
    simp
  rw [hrev, takeWhile_append_all _ _ (fun c hc => hb c (List.mem_reverse.mp hc))]
  have hsep : NodePath.notSep '/' = false := rfl
  simp [List.takeWhile_cons, hsep]

/-- Dirname of a separator-extended list is the part before the separator. -/
theorem dirnameL_append_sep (dl bl : List Char) (hd : dl ≠ [])
    (hb : ∀ c ∈ bl, NodePath.notSep c = true) :
    NodePath.dirnameL (dl ++ '/' :: bl) = dl := by
  unfold NodePath.dirnameL
  have hrev : (dl ++ '/' :: bl).reverse = bl.reverse ++ '/' :: dl.reverse := by
    simp
  rw [hrev, dropWhile_append_all _ _ (fun c hc => hb c (List.mem_reverse.mp hc))]
  have hsep : NodePath.notSep '/' = false := rfl
  rw [List.dropWhile_cons_of_neg (by simp [hsep])]
  have hne : dl.reverse.isEmpty = false := by
    cases h : dl.reverse with
    | nil => exact absurd (List.reverse_eq_nil_iff.mp h) hd
    | cons x xs => rfl
  simp [hne]

/-- The basename of a separator-free list is the whole list. -/
theorem basenameL_of_all (l : List Char) (h : ∀ c ∈ l, NodePath.notSep c = true) :
    NodePath.basenameL l = l := by
  unfold NodePath.basenameL
  rw [List.takeWhile_eq_self_iff.mpr (fun c hc => h c (List.mem_reverse.mp hc))]
  simp

/-- Basename of a join with a separator-free name is the name. -/
theorem basename_join (d b : String) (hb : noSlash b = true) :
    NodePath.basename (NodePath.join d b) = b := by
  unfold NodePath.basename
  rw [join_data, basenameL_append_sep _ _ (noSlash_chars hb), string_mk_data]

/-- Dirname of a join with a nonempty left part and separator-free name is the left part. -/
theorem dirname_join (d b : String) (hd : d ≠ "") (hb : noSlash b = true) :
    NodePath.dirname (NodePath.join d b) = d := by
  unfold NodePath.dirname
  have hdl : d.data ≠ [] := by
    intro h
    apply hd
    cases d with
    | mk ld =>
      cases h
      rfl
  rw [join_data, dirnameL_append_sep _ _ hdl (noSlash_chars hb), string_mk_data]

/-- Extname of a join with a separator-free name is the extname of the name. -/
theorem extname_join (d b : String) (hb : noSlash b = true) :
    NodePath.extname (NodePath.join d b) = NodePath.extname b := by
  unfold NodePath.extname NodePath.extnameL
  rw [join_data, basenameL_append_sep _ _ (noSlash_chars hb),
    basenameL_of_all _ (noSlash_chars hb)]

end PathLemmas

section OptionLemmas

/-- A nonempty string is truthy. -/
theorem jsTruthy_true {s : String} (h : s ≠ "") : jsTruthy s = true := by
  simp [jsTruthy, h]

/-- The empty string is falsy. -/
theorem jsTruthy_false : jsTruthy "" = false := by rfl

/-- The Boolean filter on the fixed five-slot option list keeps the two
optional slots only when nonempty and keeps the three constants. -/
theorem filter_option_slots (a b : String) :
    [a, "-gifflags", "transdiff", "-y", b].filter jsTruthy =
      (if a ≠ "" then [a] else []) ++ ["-gifflags", "transdiff", "-y"] ++
        (if b ≠ "" then [b] else []) := by
  have hg : jsTruthy "-gifflags" = true := rfl
  have ht : jsTruthy "transdiff" = true := rfl
  have hy : jsTruthy "-y" = true := rfl
  by_cases ha : a = ""
  · by_cases hb : b = ""
    · subst ha; subst hb
      simp [List.filter_cons, jsTruthy_false, hg, ht, hy]
    · subst ha
      simp [List.filter_cons, jsTruthy_false, jsTruthy_true hb, hg, ht, hy, hb]
  · by_cases hb : b = ""
    · subst hb
      simp [List.filter_cons, jsTruthy_false, jsTruthy_true ha, hg, ht, hy, ha]
    · simp [List.filter_cons, jsTruthy_true ha, jsTruthy_true hb, hg, ht, hy, ha, hb]

/-- The truthiness condition of the filters as a pair of disequalities. -/
theorem jsTruthy_and_ne (s t : String) :
    (jsTruthy s && (s != t)) = true ↔ (s ≠ "" ∧ s ≠ t) := by
  simp [jsTruthy]

/-- Structure of the src/convert.js option list. -/
theorem convertJs_options_eq (format scale fps : String) :
    ConvertJs.getConversionOptions format scale fps =
      (if scale ≠ "" ∧ scale ≠ "auto" then ["-vf scale=" ++ scale] else []) ++
        ["-gifflags", "transdiff", "-y"] ++
        (if fps ≠ "" ∧ fps ≠ "auto" then ["-vf fps=" ++ fps] else []) := by
  unfold ConvertJs.getConversionOptions
  by_cases hs : scale ≠ "" ∧ scale ≠ "auto" <;> by_cases hf : fps ≠ "" ∧ fps ≠ "auto"
  · rw [if_pos ((jsTruthy_and_ne scale "auto").mpr hs),
      if_pos ((jsTruthy_and_ne fps "auto").mpr hf),
      filter_option_slots, if_pos hs, if_pos hf,
      if_pos (append_left_ne_empty "-vf scale=" scale (by decide)),
      if_pos (append_left_ne_empty "-vf fps=" fps (by decide))]
  · rw [if_pos ((jsTruthy_and_ne scale "auto").mpr hs),
      if_neg (fun h => hf ((jsTruthy_and_ne fps "auto").mp h)),
      filter_option_slots, if_pos hs, if_neg hf,
      if_pos (append_left_ne_empty "-vf scale=" scale (by decide)),
      if_neg (fun h => h rfl)]
  · rw [if_neg (fun h => hs ((jsTruthy_and_ne scale "auto").mp h)),
      if_pos ((jsTruthy_and_ne fps "auto").mpr hf),
      filter_option_slots, if_neg hs, if_pos hf,
      if_neg (fun h => h rfl),
      if_pos (append_left_ne_empty "-vf fps=" fps (by decide))]
  · rw [if_neg (fun h => hs ((jsTruthy_and_ne scale "auto").mp h)),
      if_neg (fun h => hf ((jsTruthy_and_ne fps "auto").mp h)),
      filter_option_slots, if_neg hs, if_neg hf]
    simp

/-- Structure of the src/cli.js option list. -/
theorem cliJs_options_eq (format scale fps : String) :
    CliJs.getConversionOptions format scale fps =
      (if scale ≠ "" ∧ scale ≠ "auto" then "-vf scale=" ++ scale else "-vf scale=-1:-1") ::
        ["-gifflags", "transdiff", "-y"] ++
        (if fps ≠ "" ∧ fps ≠ "auto" then ["-vf fps=" ++ fps] else []) := by
  unfold CliJs.getConversionOptions
  by_cases hs : scale ≠ "" ∧ scale ≠ "auto" <;> by_cases hf : fps ≠ "" ∧ fps ≠ "auto"
  · rw [if_pos ((jsTruthy_and_ne scale "auto").mpr hs),
      if_pos ((jsTruthy_and_ne fps "auto").mpr hf),
      filter_option_slots,
      if_pos (append_left_ne_empty "-vf scale=" scale (by decide)),
      if_pos (append_left_ne_empty "-vf fps=" fps (by decide)),
      if_pos hs, if_pos hf]
    rfl
  · rw [if_pos ((jsTruthy_and_ne scale "auto").mpr hs),
      if_neg (fun h => hf ((jsTruthy_and_ne fps "auto").mp h)),
      filter_option_slots,
      if_pos (append_left_ne_empty "-vf scale=" scale (by decide)),
      if_neg (fun h => h rfl),
      if_pos hs, if_neg hf]
    rfl
  · rw [if_neg (fun h => hs ((jsTruthy_and_ne scale "auto").mp h)),
      if_pos ((jsTruthy_and_ne fps "auto").mpr hf),
      filter_option_slots,
      if_pos (show "-vf scale=-1:-1" ≠ "" by decide),
      if_pos (append_left_ne_empty "-vf fps=" fps (by decide)),
      if_neg hs, if_pos hf]
    rfl
  · rw [if_neg (fun h => hs ((jsTruthy_and_ne scale "auto").mp h)),
      if_neg (fun h => hf ((jsTruthy_and_ne fps "auto").mp h)),
      filter_option_slots,
      if_pos (show "-vf scale=-1:-1" ≠ "" by decide),
      if_neg (fun h => h rfl),
      if_neg hs, if_neg hf]
    rfl

end OptionLemmas

section BatchLemmas

/-- Once skipAll is set, one loop body leaves the state unchanged and skips. -/
theorem processFile_skipAll (st : BatchState) (f : FileTask) (h : st.skipAll = true) :
    CliJs.processFile st f = (st, Outcome.skipped) := by
  unfold CliJs.processFile CliJs.attemptConvert
  simp [h]

/-- Once skipAll is set, the remaining loop skips every file. -/
theorem runBatch_skipAll :
    ∀ (fs : List FileTask) (st : BatchState), st.skipAll = true →
      CliJs.runBatch st fs = (st, fs.map fun _ => Outcome.skipped) := by
  intro fs
  induction fs with
  | nil => intro st _; rfl
  | cons f fs ih =>
    intro st h
    simp only [CliJs.runBatch, processFile_skipAll st f h]
    simp [ih st h]

/-- One loop body bumps completedFiles exactly when it converts. -/
theorem processFile_completed (st : BatchState) (f : FileTask) :
    (CliJs.processFile st f).1.completed =
      st.completed + (if (CliJs.processFile st f).2 = Outcome.converted then 1 else 0) := by
  unfold CliJs.processFile CliJs.attemptConvert
  split_ifs <;> simp_all

/-- The final completedFiles counts exactly the converted outcomes. -/
theorem runBatch_completed :
    ∀ (fs : List FileTask) (st : BatchState),
      (CliJs.runBatch st fs).1.completed =
        st.completed + ((CliJs.runBatch st fs).2.count Outcome.converted) := by
  intro fs
  induction fs with
  | nil => intro st; simp [CliJs.runBatch]
  | cons f fs ih =>
    intro st
    simp only [CliJs.runBatch]
    by_cases hc : (CliJs.processFile st f).2 = Outcome.canceled
    · simp only [hc, if_pos rfl]
      have := processFile_completed st f
      rw [hc] at this
      simp_all [List.count_cons]
    · simp only [if_neg hc]
      have hpc := processFile_completed st f
      rw [ih ((CliJs.processFile st f).1), hpc, List.count_cons]
      by_cases hcv : (CliJs.processFile st f).2 = Outcome.converted <;>
        simp [hcv] <;> omega

/-- When no cancel occurs, every file receives an outcome. -/
theorem runBatch_length :
    ∀ (fs : List FileTask) (st : BatchState),
      Outcome.canceled ∉ (CliJs.runBatch st fs).2 →
      (CliJs.runBatch st fs).2.length = fs.length := by
  intro fs
  induction fs with
  | nil => intro st _; rfl
  | cons f fs ih =>
    intro st h
    simp only [CliJs.runBatch] at h ⊢
    by_cases hc : (CliJs.processFile st f).2 = Outcome.canceled
    · rw [if_pos hc] at h
      simp [hc] at h
    · rw [if_neg hc] at h ⊢
      simp only [List.length_cons]
      rw [ih ((CliJs.processFile st f).1) (fun hm => h (List.mem_cons_of_mem _ hm))]

/-- The non-interactive loop gives every file an outcome and counts exactly
the conversions. -/
theorem runSimpleBatch_spec :
    ∀ (fs : List (Bool × Bool)) (completed : Nat),
      (ConvertJs.runSimpleBatch completed fs).1 =
        completed + ((ConvertJs.runSimpleBatch completed fs).2.count Outcome.converted) ∧
      (ConvertJs.runSimpleBatch completed fs).2.length = fs.length := by
  intro fs
  induction fs with
  | nil => intro completed; simp [ConvertJs.runSimpleBatch]
  | cons f fs ih =>
    intro completed
    obtain ⟨ex, ok⟩ := f
    unfold ConvertJs.runSimpleBatch
    cases ex
    · cases ok
      · rw [if_neg (by simp), if_neg (by simp)]
        have := ih completed
        simp [List.count_cons, this.1, this.2]
      · rw [if_neg (by simp), if_pos rfl]
        have := ih (completed + 1)
        refine ⟨?_, by simp [this.2]⟩
        simp [List.count_cons, this.1]
        omega
    · rw [if_pos rfl]
      have := ih completed
      simp [List.count_cons, this.1, this.2]

end BatchLemmas

section DiscoveryLemmas

/-- The push loop of getMediaFiles equals a filter followed by a map. -/
theorem getMediaFilesDir_eq (inputPath : String) (entries : List DirEntry) :
    ConvertJs.getMediaFilesDir inputPath entries =
      (entries.filter (fun e => e.isFile &&
          ConvertJs.extensions.contains
            (jsToLower (NodePath.extname (NodePath.join inputPath e.name))))).map
        (fun e => NodePath.join inputPath e.name) := by
  unfold ConvertJs.getMediaFilesDir
  have h := foldl_push_filter
    (fun e : DirEntry => e.isFile && ConvertJs.extensions.contains
      (jsToLower (NodePath.extname (NodePath.join inputPath e.name))))
    (fun e : DirEntry => NodePath.join inputPath e.name) entries []
  simpa using h

/-- The push loop of getVideoFiles equals a filter followed by a map. -/
theorem getVideoFilesDir_eq (inputPath : String) (entries : List DirEntry) :
    CliJs.getVideoFilesDir inputPath entries =
      (entries.filter (fun e => e.isFile &&
          (jsToLower (NodePath.extname (NodePath.join inputPath e.name)) == ".mp4"))).map
        (fun e => NodePath.join inputPath e.name) := by
  unfold CliJs.getVideoFilesDir
  have h := foldl_push_filter
    (fun e : DirEntry => e.isFile &&
      (jsToLower (NodePath.extname (NodePath.join inputPath e.name)) == ".mp4"))
    (fun e : DirEntry => NodePath.join inputPath e.name) entries []
  simpa using h

end DiscoveryLemmas

section ExtnameLemmas

/-- Every character of a basename is a non-separator. -/
theorem basenameL_noSlash (l : List Char) :
    ∀ c ∈ NodePath.basenameL l, NodePath.notSep c = true := by
  intro c hc
  unfold NodePath.basenameL at hc
  exact List.mem_takeWhile_imp (List.mem_reverse.mp hc)

/-- The extension-stripped basename contains no separator. -/
theorem noSlash_basenameExt (p q : String) :
    noSlash (NodePath.basenameExt p q) = true := by
  have hbase := basenameL_noSlash p.data
  unfold NodePath.basenameExt NodePath.basenameSuffixL noSlash
  dsimp only
  split_ifs with h
  · refine List.all_eq_true.mpr ?_
    intro c hc
    exact hbase c (List.mem_of_mem_take hc)
  · exact List.all_eq_true.mpr (fun c hc => hbase c hc)

/-- Extension of a dot-extended name: appending a dot and a dot-free part to
a nonempty name makes that part the extension. -/
theorem extOfBase_append (bl f : List Char) (hb : bl ≠ [])
    (hf : ∀ c ∈ f, (c != '.') = true) :
    NodePath.extOfBase (bl ++ '.' :: f) = '.' :: f := by
  simp only [NodePath.extOfBase]
  have hrev : (bl ++ '.' :: f).reverse = f.reverse ++ '.' :: bl.reverse := by simp
  rw [hrev, takeWhile_append_all _ _ (fun c hc => hf c (List.mem_reverse.mp hc))]
  simp only [List.takeWhile_cons, bne_self_eq_false, Bool.false_eq_true, if_false,
    List.append_nil, List.length_reverse, List.length_append, List.length_cons]
  have hlb : 0 < bl.length := List.length_pos.mpr hb
  rw [if_neg (by omega), if_neg (by omega)]
  simp

/-- Characters of a double append with a dot in between. -/
theorem append_dot_data (b f : String) :
    (b ++ "." ++ f).data = b.data ++ '.' :: f.data := by
  cases b with
  | mk lb =>
    cases f with
    | mk lf =>
      show (lb ++ ['.']) ++ lf = lb ++ '.' :: lf
      simp

/-- A dot-extended name made of separator-free parts is separator-free. -/
theorem noSlash_append_dot (b f : String) (hbs : noSlash b = true)
    (hfs : noSlash f = true) : noSlash (b ++ "." ++ f) = true := by
  unfold noSlash at hbs hfs ⊢
  rw [append_dot_data]
  refine List.all_eq_true.mpr ?_
  intro c hc
  rcases List.mem_append.mp hc with h | h
  · exact List.all_eq_true.mp hbs c h
  · rcases List.mem_cons.mp h with h | h
    · rw [h]
      rfl
    · exact List.all_eq_true.mp hfs c h

/-- Extname of a separator-free name extended by a dot and a dot-free,
separator-free format. -/
theorem extname_append_dot (b f : String) (hb : b ≠ "") (hbs : noSlash b = true)
    (hfs : noSlash f = true) (hfd : noDot f = true) :
    NodePath.extname (b ++ "." ++ f) = "." ++ f := by
  unfold NodePath.extname NodePath.extnameL
  rw [append_dot_data]
  have hall : ∀ c ∈ b.data ++ '.' :: f.data, NodePath.notSep c = true := by
    intro c hc
    rcases List.mem_append.mp hc with h | h
    · exact List.all_eq_true.mp hbs c h
    · rcases List.mem_cons.mp h with h | h
      · rw [h]
        rfl
      · exact List.all_eq_true.mp hfs c h
  rw [basenameL_of_all _ hall]
  have hbd : b.data ≠ [] := by
    intro h
    apply hb
    cases b with
    | mk lb =>
      cases h
      rfl
  rw [extOfBase_append _ _ hbd (fun c hc => List.all_eq_true.mp hfd c hc)]
  cases f with
  | mk lf => rfl

end ExtnameLemmas

section PromptLemmas

/-- Decimal digit rendering produces digit characters. -/
theorem digitChar_isDigit {n : Nat} (h : n < 10) : (Nat.digitChar n).isDigit = true := by
  interval_cases n <;> decide

/-- An accepted scale is auto or parses to a float within the bounds. -/
theorem validateScale_spec (i v : String) (h : CliJs.validateScale i = some v) :
    v = "auto" ∨ ∃ q, jsParseFloat v = some (JsNum.num q) ∧ 1/4 ≤ q ∧ q ≤ 3 := by
  unfold CliJs.validateScale at h
  split_ifs at h with h1
  · left
    injection h with h2
    exact h2.symm
  · cases hp : jsParseFloat i with
    | none =>
      rw [hp] at h
      exact absurd h (by simp)
    | some n =>
      rw [hp] at h
      cases n with
      | posInf => exact absurd h (by simp)
      | negInf => exact absurd h (by simp)
      | num q =>
        simp only at h
        split_ifs at h with h2
        injection h with h3
        right
        subst h3
        exact ⟨q, hp, h2.1, h2.2⟩

/-- Whatever line queue drives it, a successful promptUserScale returns auto
or a string parsing to a float within the bounds. -/
theorem promptUserScale_spec :
    ∀ (inputs : List String) (s : String),
      CliJs.promptUserScale inputs = some s →
      s = "auto" ∨ ∃ q, jsParseFloat s = some (JsNum.num q) ∧ 1/4 ≤ q ∧ q ≤ 3 := by
  intro inputs
  induction inputs with
  | nil =>
    intro s h
    exact absurd h (by simp [CliJs.promptUserScale])
  | cons a rest ih =>
    intro s h
    unfold CliJs.promptUserScale at h
    cases hv : CliJs.validateScale (jsTrim a) with
    | some v =>
      rw [hv] at h
      injection h with h2
      exact h2 ▸ validateScale_spec _ _ hv
    | none =>
      rw [hv] at h
      exact ih s h

/-- After any run of invalid lines, a valid line is still accepted. -/
theorem promptUserScale_retry :
    ∀ (inputs : List String),
      (CliJs.promptUserScale (inputs ++ ["auto"])).isSome = true := by
  intro inputs
  induction inputs with
  | nil => rfl
  | cons a rest ih =>
    show (CliJs.promptUserScale (a :: (rest ++ ["auto"]))).isSome = true
    unfold CliJs.promptUserScale
    cases hv : CliJs.validateScale (jsTrim a) with
    | some v => rfl
    | none => exact ih

end PromptLemmas

/-- C1: with three discovered files where the first output is absent and its
conversion succeeds, the second output exists and the user answers 4, the
run converts file one, skips files two and three and completes exactly one
file; and once skipAll is set, every remaining file of the run is skipped
and never converted. -/
theorem C1_skip_all_remaining :
    (∀ f1 f2 f3 : FileTask,
      f1.outputExists = false → f1.convOk = true →
      f2.outputExists = true → f2.response = "4" →
      (CliJs.runBatch CliJs.initState [f1, f2, f3]).2 =
        [Outcome.converted, Outcome.skipped, Outcome.skipped] ∧
      (CliJs.runBatch CliJs.initState [f1, f2, f3]).1.completed = 1) ∧
    (∀ (st : BatchState) (fs : List FileTask), st.skipAll = true →
      CliJs.runBatch st fs = (st, fs.map fun _ => Outcome.skipped)) := by
  constructor
  · intro f1 f2 f3 h1 h2 h3 h4
    obtain ⟨e1, r1, c1⟩ := f1
    obtain ⟨e2, r2, c2⟩ := f2
    obtain ⟨e3, r3, c3⟩ := f3
    simp only at h1 h2 h3 h4
    subst h1
    subst h2
    subst h3
    subst h4
    constructor <;>
      simp [CliJs.runBatch, CliJs.processFile, CliJs.attemptConvert, CliJs.initState]
  · intro st fs h
    exact runBatch_skipAll fs st h

/-- C1 witness at the concrete three-file scenario. -/
theorem C1_witness :
    (CliJs.runBatch CliJs.initState
      [⟨false, "", true⟩, ⟨true, "4", true⟩, ⟨false, "", true⟩]).2 =
        [Outcome.converted, Outcome.skipped, Outcome.skipped] ∧
    (CliJs.runBatch CliJs.initState
      [⟨false, "", true⟩, ⟨true, "4", true⟩, ⟨false, "", true⟩]).1.completed = 1 :=
  C1_skip_all_remaining.1 ⟨false, "", true⟩ ⟨true, "4", true⟩ ⟨false, "", true⟩ rfl rfl rfl rfl

/-- C2 counterexample: for format gif, scale auto and fps 30 the src/cli.js
option list does contain a scale filter, namely the default -vf scale=-1:-1
substituted when scale is auto, so the list does not exclude the scale
filter as claimed for every cited implementation. -/
theorem C2_counterexample :
    CliJs.getConversionOptions "gif" "auto" "30" =
      ["-vf scale=-1:-1", "-gifflags", "transdiff", "-y", "-vf fps=30"] ∧
    "-vf scale=".data.isPrefixOf "-vf scale=-1:-1".data = true := by
  constructor
  · decide
  · decide

/-- C2 amended: the src/convert.js list has a scale filter exactly when
scale is neither empty nor auto, then the gifflags pair, the overwrite flag
and an fps filter exactly when fps is neither empty nor auto, in that
order; the src/cli.js list is identical except that an empty or auto scale
contributes the default filter -vf scale=-1:-1; for gif, auto, 30 the
src/convert.js list excludes the scale filter and includes the fps filter. -/
theorem C2_amended_option_structure :
    ∀ format scale fps : String,
      ConvertJs.getConversionOptions format scale fps =
        (if scale ≠ "" ∧ scale ≠ "auto" then ["-vf scale=" ++ scale] else []) ++
          ["-gifflags", "transdiff", "-y"] ++
          (if fps ≠ "" ∧ fps ≠ "auto" then ["-vf fps=" ++ fps] else []) ∧
      CliJs.getConversionOptions format scale fps =
        (if scale ≠ "" ∧ scale ≠ "auto" then "-vf scale=" ++ scale else "-vf scale=-1:-1") ::
          ["-gifflags", "transdiff", "-y"] ++
          (if fps ≠ "" ∧ fps ≠ "auto" then ["-vf fps=" ++ fps] else []) ∧
      ConvertJs.getConversionOptions "gif" "auto" "30" =
        ["-gifflags", "transdiff", "-y", "-vf fps=30"] :=
  fun format scale fps =>
    ⟨convertJs_options_eq format scale fps, cliJs_options_eq format scale fps, by decide⟩

/-- C3 counterexample: with an existing output, session flags clear and the
unrecognized reply junk, the loop converts the file and counts a
completion instead of moving on with no action. -/
theorem C3_counterexample :
    CliJs.runBatch CliJs.initState [⟨true, "junk", true⟩] =
      (⟨false, false, 1⟩, [Outcome.converted]) := by decide

/-- C3 amended: an overwrite-prompt reply other than 0, 2, 3 and 4 falls
through exactly like reply 1: the conversion attempt runs, converting on
engine success and failing on engine failure. -/
theorem C3_amended_fallthrough :
    ∀ (st : BatchState) (f : FileTask),
      st.overwriteAll = false → st.skipAll = false → f.outputExists = true →
      f.response ≠ "0" → f.response ≠ "2" → f.response ≠ "3" → f.response ≠ "4" →
      CliJs.processFile st f = CliJs.attemptConvert st f ∧
      (CliJs.processFile st f).2 =
        (if f.convOk then Outcome.converted else Outcome.failed) := by
  intro st f ho hs he h0 h2 h3 h4
  have hcond : (f.outputExists && !st.overwriteAll && !st.skipAll) = true := by
    rw [he, ho, hs]
    rfl
  unfold CliJs.processFile
  rw [if_pos hcond, if_neg h0, if_neg h2, if_neg h4, if_neg h3]
  refine ⟨rfl, ?_⟩
  unfold CliJs.attemptConvert
  rw [if_neg (by simp [hs])]
  cases hc : f.convOk <;> simp [hc]

/-- C3 amended witness at the concrete junk reply. -/
theorem C3_amended_witness :
    CliJs.processFile CliJs.initState ⟨true, "junk", true⟩ =
      CliJs.attemptConvert CliJs.initState ⟨true, "junk", true⟩ ∧
    (CliJs.processFile CliJs.initState ⟨true, "junk", true⟩).2 =
      (if (true : Bool) then Outcome.converted else Outcome.failed) :=
  C3_amended_fallthrough CliJs.initState ⟨true, "junk", true⟩ rfl rfl rfl
    (by decide) (by decide) (by decide) (by decide)

/-- C6: in the interactive loop the completed count rises exactly with the
converted outcomes and, when no cancel occurs, every file receives an
outcome, so one file failing never ends the batch; the non-interactive loop
satisfies the same with no cancel path at all. -/
theorem C6_per_file_failure_not_fatal :
    (∀ (st : BatchState) (fs : List FileTask),
      (CliJs.runBatch st fs).1.completed =
        st.completed + ((CliJs.runBatch st fs).2.count Outcome.converted) ∧
      (Outcome.canceled ∉ (CliJs.runBatch st fs).2 →
        (CliJs.runBatch st fs).2.length = fs.length)) ∧
    ∀ (completed : Nat) (fs : List (Bool × Bool)),
      (ConvertJs.runSimpleBatch completed fs).1 =
        completed + ((ConvertJs.runSimpleBatch completed fs).2.count Outcome.converted) ∧
      (ConvertJs.runSimpleBatch completed fs).2.length = fs.length := by
  constructor
  · intro st fs
    exact ⟨runBatch_completed fs st, runBatch_length fs st⟩
  · intro completed fs
    exact runSimpleBatch_spec fs completed

/-- C6 witness on a two-file batch with one failure. -/
theorem C6_witness :
    (CliJs.runBatch CliJs.initState [⟨false, "x", true⟩, ⟨false, "x", false⟩]).1.completed =
      CliJs.initState.completed +
        ((CliJs.runBatch CliJs.initState
          [⟨false, "x", true⟩, ⟨false, "x", false⟩]).2.count Outcome.converted) ∧
    (CliJs.runBatch CliJs.initState [⟨false, "x", true⟩, ⟨false, "x", false⟩]).2.length = 2 :=
  ⟨(C6_per_file_failure_not_fatal.1 CliJs.initState _).1,
   (C6_per_file_failure_not_fatal.1 CliJs.initState _).2 (by decide)⟩

/-- C9: the claim that an unrecognized colorTag falls back to a default
style and that the logger never fails is contradicted by the code, which
calls the undefined property chalk[colorTag] and throws a TypeError before
the falsy-fallback can apply; a recognized tag does produce a line. -/
theorem C9_unrecognized_tag_throws :
    logWithTimestamp "12:00:00" "hello" "sparkles" =
      Except.error "TypeError: chalk[color] is not a function" ∧
    ∃ line, logWithTimestamp "12:00:00" "hello" "whiteBright" = Except.ok line := by
  exact ⟨rfl, ⟨_, rfl⟩⟩

/-- C10: both option builders ignore their format argument entirely, and the
gifflags pair is present for every format, scale and fps. -/
theorem C10_options_ignore_format :
    ∀ f1 f2 scale fps : String,
      ConvertJs.getConversionOptions f1 scale fps =
        ConvertJs.getConversionOptions f2 scale fps ∧
      CliJs.getConversionOptions f1 scale fps = CliJs.getConversionOptions f2 scale fps ∧
      List.Sublist ["-gifflags", "transdiff"] (ConvertJs.getConversionOptions f1 scale fps) ∧
      List.Sublist ["-gifflags", "transdiff"] (CliJs.getConversionOptions f1 scale fps) := by
  intro f1 f2 scale fps
  have hmid : List.Sublist ["-gifflags", "transdiff"] ["-gifflags", "transdiff", "-y"] :=
    List.Sublist.cons₂ _ (List.Sublist.cons₂ _ (List.nil_sublist _))
  refine ⟨rfl, rfl, ?_, ?_⟩
  · rw [convertJs_options_eq]
    exact hmid.trans ((List.sublist_append_right _ _).trans (List.sublist_append_left _ _))
  · rw [cliJs_options_eq]
    exact (hmid.trans (List.sublist_append_left _ _)).cons _

/-- C4 counterexample: with two discovered files from different directories,
the second file's derived output lands in the first file's directory, not
in its own. -/
theorem C4_counterexample :
    batchOutputFiles ["/a/x.mp4", "/b/y.mp4"] "gif" = ["/a/x.gif", "/a/y.gif"] ∧
    NodePath.dirname "/a/y.gif" ≠ NodePath.dirname "/b/y.mp4" := by
  constructor
  · decide
  · decide

/-- C4 amended: every derived output path lies in the directory of the first
discovered file, carries the extension-stripped base name of its own input
and takes its extension from the selected format. -/
theorem C4_amended_output_paths :
    ∀ (f0 : String) (files : List String) (fmt file : String),
      file ∈ f0 :: files →
      outputFileFor f0 file fmt ∈ batchOutputFiles (f0 :: files) fmt ∧
      (NodePath.dirname f0 ≠ "" → noSlash fmt = true →
        NodePath.dirname (outputFileFor f0 file fmt) = NodePath.dirname f0) ∧
      (noSlash fmt = true →
        NodePath.basename (outputFileFor f0 file fmt) =
          NodePath.basenameExt file (NodePath.extname file) ++ "." ++ fmt) ∧
      (noSlash fmt = true → noDot fmt = true →
        NodePath.basenameExt file (NodePath.extname file) ≠ "" →
        NodePath.extname (outputFileFor f0 file fmt) = "." ++ fmt) := by
  intro f0 files fmt file hmem
  refine ⟨?_, ?_, ?_, ?_⟩
  · show outputFileFor f0 file fmt ∈ (f0 :: files).map (fun x => outputFileFor f0 x fmt)
    exact List.mem_map_of_mem _ hmem
  · intro hd hf
    unfold outputFileFor
    exact dirname_join _ _ hd (noSlash_append_dot _ _ (noSlash_basenameExt _ _) hf)
  · intro hf
    unfold outputFileFor
    exact basename_join _ _ (noSlash_append_dot _ _ (noSlash_basenameExt _ _) hf)
  · intro hf hd hbne
    unfold outputFileFor
    rw [extname_join _ _ (noSlash_append_dot _ _ (noSlash_basenameExt _ _) hf)]
    exact extname_append_dot _ _ hbne (noSlash_basenameExt _ _) hf hd

/-- C4 amended witness at the concrete two-directory batch. -/
theorem C4_amended_witness :
    outputFileFor "/a/x.mp4" "/b/y.mp4" "gif" ∈
      batchOutputFiles ["/a/x.mp4", "/b/y.mp4"] "gif" ∧
    NodePath.dirname (outputFileFor "/a/x.mp4" "/b/y.mp4" "gif") =
      NodePath.dirname "/a/x.mp4" ∧
    NodePath.basename (outputFileFor "/a/x.mp4" "/b/y.mp4" "gif") =
      NodePath.basenameExt "/b/y.mp4" (NodePath.extname "/b/y.mp4") ++ "." ++ "gif" ∧
    NodePath.extname (outputFileFor "/a/x.mp4" "/b/y.mp4" "gif") = "." ++ "gif" := by
  have h := C4_amended_output_paths "/a/x.mp4" ["/b/y.mp4"] "gif" "/b/y.mp4" (by decide)
  exact ⟨h.1, h.2.1 (by decide) (by decide), h.2.2.1 (by decide),
    h.2.2.2 (by decide) (by decide) (by decide)⟩

/-- C5: promptUserScale only ever returns auto or a string whose parseFloat
value lies within the inclusive bounds 0.25 and 3.0; empty input and auto
map to auto, the boundary inputs are accepted, out-of-range and
unparseable inputs are rejected, and a valid line after any run of invalid
lines is still accepted, so invalid input re-prompts and is never fatal. -/
theorem C5_promptScale_validation :
    (∀ (inputs : List String) (s : String),
      CliJs.promptUserScale inputs = some s →
      s = "auto" ∨ ∃ q, jsParseFloat s = some (JsNum.num q) ∧ 1/4 ≤ q ∧ q ≤ 3) ∧
    CliJs.validateScale "" = some "auto" ∧
    CliJs.validateScale "auto" = some "auto" ∧
    CliJs.validateScale "0.25" = some "0.25" ∧
    CliJs.validateScale "3.0" = some "3.0" ∧
    CliJs.validateScale "0.24" = none ∧
    CliJs.validateScale "3.1" = none ∧
    CliJs.validateScale "abc" = none ∧
    ∀ (inputs : List String), (CliJs.promptUserScale (inputs ++ ["auto"])).isSome = true := by
  refine ⟨promptUserScale_spec, ?_, ?_, ?_, ?_, ?_, ?_, ?_, promptUserScale_retry⟩
  · rfl
  · rfl
  · with_unfolding_all decide
  · with_unfolding_all decide
  · with_unfolding_all decide
  · with_unfolding_all decide
  · with_unfolding_all decide

/-- C5 witness: a rejected line followed by 0.5 yields the in-range 0.5. -/
theorem C5_witness :
    "0.5" = "auto" ∨ ∃ q, jsParseFloat "0.5" = some (JsNum.num q) ∧ 1/4 ≤ q ∧ q ≤ 3 :=
  C5_promptScale_validation.1 ["abc", "0.5"] "0.5" (by with_unfolding_all decide)

/-- C7: formatFileSize renders the plain byte count when bytes over 1024 is
at most 1, kilobytes with exactly two decimal digits and the KB suffix when
that ratio is over 1 but at most 1024, and megabytes with exactly two
decimal digits and the MB suffix when bytes over 1024 over 1024 exceeds 1. -/
theorem C7_formatFileSize_thresholds :
    ∀ b : Nat,
      ((b : ℚ) / 1024 ≤ 1 → formatFileSize b = toString b ++ " bytes") ∧
      (1 < (b : ℚ) / 1024 → (b : ℚ) / 1024 ≤ 1024 →
        ∃ ip c1 c2, formatFileSize b = ip ++ "." ++ String.mk [c1, c2] ++ " KB" ∧
          c1.isDigit = true ∧ c2.isDigit = true) ∧
      (1 < (b : ℚ) / 1024 / 1024 →
        ∃ ip c1 c2, formatFileSize b = ip ++ "." ++ String.mk [c1, c2] ++ " MB" ∧
          c1.isDigit = true ∧ c2.isDigit = true) := by
  intro b
  have h1024 : (0 : ℚ) < 1024 := by norm_num
  refine ⟨?_, ?_, ?_⟩
  · intro h
    have hmb : (b : ℚ) / 1024 / 1024 ≤ 1 := by
      rw [div_le_one h1024]
      exact le_trans h (by norm_num)
    simp only [formatFileSize]
    rw [if_neg (not_lt.mpr hmb), if_neg (not_lt.mpr h)]
  · intro hk1 hk2
    have hmb : (b : ℚ) / 1024 / 1024 ≤ 1 := by
      rw [div_le_one h1024]
      exact hk2
    simp only [formatFileSize]
    rw [if_neg (not_lt.mpr hmb), if_pos hk1]
    refine ⟨toString ((⌊(b : ℚ) / 1024 * 100 + 1/2⌋).toNat / 100),
      Nat.digitChar ((⌊(b : ℚ) / 1024 * 100 + 1/2⌋).toNat / 10 % 10),
      Nat.digitChar ((⌊(b : ℚ) / 1024 * 100 + 1/2⌋).toNat % 10), rfl, ?_, ?_⟩
    · exact digitChar_isDigit (Nat.mod_lt _ (by norm_num))
    · exact digitChar_isDigit (Nat.mod_lt _ (by norm_num))
  · intro hm
    simp only [formatFileSize]
    rw [if_pos hm]
    refine ⟨toString ((⌊(b : ℚ) / 1024 / 1024 * 100 + 1/2⌋).toNat / 100),
      Nat.digitChar ((⌊(b : ℚ) / 1024 / 1024 * 100 + 1/2⌋).toNat / 10 % 10),
      Nat.digitChar ((⌊(b : ℚ) / 1024 / 1024 * 100 + 1/2⌋).toNat % 10), rfl, ?_, ?_⟩
    · exact digitChar_isDigit (Nat.mod_lt _ (by norm_num))
    · exact digitChar_isDigit (Nat.mod_lt _ (by norm_num))

/-- C7 witness in the KB range. -/
theorem C7_witness :
    ∃ ip c1 c2, formatFileSize 2048 = ip ++ "." ++ String.mk [c1, c2] ++ " KB" ∧
      c1.isDigit = true ∧ c2.isDigit = true :=
  (C7_formatFileSize_thresholds 2048).2.1 (by norm_num) (by norm_num)

/-- C8: on a directory listing, both discovery routines keep exactly the
regular-file entries whose lowercased extension is in the accepted set of
the mode, in listing order, mapped to their joined paths; on the listing
a.mp4, b.txt, c.MP4 both modes return the joined a.mp4 and c.MP4. -/
theorem C8_directory_discovery :
    (∀ (inputPath : String) (entries : List DirEntry),
      (∀ e ∈ entries, noSlash e.name = true) →
      ConvertJs.getMediaFilesDir inputPath entries =
        (entries.filter (fun e => e.isFile &&
            ConvertJs.extensions.contains (jsToLower (NodePath.extname e.name)))).map
          (fun e => NodePath.join inputPath e.name)) ∧
    (∀ (inputPath : String) (entries : List DirEntry),
      (∀ e ∈ entries, noSlash e.name = true) →
      CliJs.getVideoFilesDir inputPath entries =
        (entries.filter (fun e => e.isFile &&
            (jsToLower (NodePath.extname e.name) == ".mp4"))).map
          (fun e => NodePath.join inputPath e.name)) ∧
    ConvertJs.getMediaFilesDir "/d" [⟨"a.mp4", true⟩, ⟨"b.txt", true⟩, ⟨"c.MP4", true⟩] =
      ["/d/a.mp4", "/d/c.MP4"] ∧
    CliJs.getVideoFilesDir "/d" [⟨"a.mp4", true⟩, ⟨"b.txt", true⟩, ⟨"c.MP4", true⟩] =
      ["/d/a.mp4", "/d/c.MP4"] := by
  refine ⟨?_, ?_, by decide, by decide⟩
  · intro inputPath entries h
    rw [getMediaFilesDir_eq]
    congr 1
    apply List.filter_congr
    intro e he
    rw [extname_join _ _ (h e he)]
  · intro inputPath entries h
    rw [getVideoFilesDir_eq]
    congr 1
    apply List.filter_congr
    intro e he
    rw [extname_join _ _ (h e he)]

/-- C8 witness on the concrete listing. -/
theorem C8_witness :
    ConvertJs.getMediaFilesDir "/d" [⟨"a.mp4", true⟩, ⟨"b.txt", true⟩, ⟨"c.MP4", true⟩] =
      (([⟨"a.mp4", true⟩, ⟨"b.txt", true⟩, ⟨"c.MP4", true⟩] : List DirEntry).filter
          (fun e => e.isFile &&
            ConvertJs.extensions.contains (jsToLower (NodePath.extname e.name)))).map
        (fun e => NodePath.join "/d" e.name) :=
  C8_directory_discovery.1 "/d" _ (by decide)
